import Mathlib

set_option autoImplicit false

/-!
# Verification of the fireorm mapping-and-query engine

Shallow embedding of the fireorm Go package (`db.go`, `query.go`,
`connection.go`, and the reflection helpers `SetIDField` / `StructToMap`)
together with proofs about the record adapter, the predicate builder,
the builder-style orchestrator operations, `Save`, `FindAll`, and the
paginated by-query bulk-update loop of `Update`.

Go reflection is embedded by representing a struct value as a list of
named, tagged fields holding dynamic values; Go maps are embedded as
association lists with overwrite-on-insert semantics; fallible Go
functions return `Except String`; the external Firestore store is
abstracted as the (stable) ordered list of documents matching the
applied query, and panics / non-termination are represented by `Option`.
-/

namespace Fireorm

/-! ## Dynamic values and reflected struct values -/

/-- A dynamic (`interface{}`) value stored in a struct field. -/
inductive GoValue where
  | str (s : String)
  | int (n : Int)
  | null
deriving DecidableEq, Repr

/-- `reflect.Value.Kind() == reflect.String` for a field value. -/
def GoValue.isStr : GoValue → Bool
  | .str _ => true
  | _ => false

/-- One struct field: Go field name, `firestore:"..."` tag, current value.
An absent tag is the empty string (as returned by `Tag.Get`). -/
structure GoField where
  name : String
  tag : String
  value : GoValue
deriving DecidableEq, Repr

/-- A reflected Go struct value: its fields in declaration order. -/
structure GoStruct where
  fields : List GoField
deriving DecidableEq, Repr

/-- `reflect.Value.FieldByName`: first field with the given name. -/
def getfield (r : GoStruct) (name : String) : Option GoField :=
  r.fields.find? (fun f => f.name == name)

/-- `DB.GetID` (db.go): the `"ID"` field's value when it exists and is a
string, `""` otherwise.  Never fails. -/
def GetID (model : GoStruct) : String :=
  match getfield model "ID" with
  | some f =>
    match f.value with
    | .str s => s
    | _ => ""
  | none => ""

/-- Helper for `SetIDField`: overwrite the value of the first field named
`"ID"` with the given string. -/
def setIDAux (id : String) : List GoField → List GoField
  | [] => []
  | f :: fs =>
    if f.name == "ID" then { f with value := .str id } :: fs
    else f :: setIDAux id fs

/-- `SetIDField` (utils): sets the `"ID"` field when it exists, is
settable (`canSet`, true when the struct was reached through a pointer)
and is string-kinded; a no-op otherwise.  Never fails. -/
def SetIDField (canSet : Bool) (model : GoStruct) (id : String) : GoStruct :=
  match getfield model "ID" with
  | some f =>
    if canSet && f.value.isStr then ⟨setIDAux id model.fields⟩ else model
  | none => model

/-! ## Go maps keyed by strings (`map[string]interface{}`) -/

/-- A Go `map[string]interface{}`, as an association list with
overwrite-on-insert semantics. -/
abbrev FieldMap := List (String × GoValue)

/-- Key membership in the map. -/
def mapContains (m : FieldMap) (k : String) : Bool :=
  m.any (fun p => p.1 == k)

/-- `m[k] = v`: overwrites an existing binding, else appends. -/
def mapInsert (m : FieldMap) (k : String) (v : GoValue) : FieldMap :=
  if mapContains m k then m.map (fun p => if p.1 == k then (k, v) else p)
  else m ++ [(k, v)]

/-- `v, ok := m[k]` as an `Option`. -/
def mapGet (m : FieldMap) (k : String) : Option GoValue :=
  (m.find? (fun p => p.1 == k)).map (fun p => p.2)

/-- A field enters the Firestore mapping iff its tag is non-empty and not
the `"-"` ignore sentinel (the `continue` condition of `StructToMap`). -/
def qualifies (f : GoField) : Bool :=
  !(f.tag == "" || f.tag == "-")

/-- The field-iteration loop of `StructToMap`. -/
def structToMapAux : List GoField → FieldMap → FieldMap
  | [], data => data
  | f :: fs, data =>
    if f.tag == "" || f.tag == "-" then structToMapAux fs data
    else structToMapAux fs (mapInsert data f.tag f.value)

/-- `StructToMap` (utils): converts a struct to a map for Firestore,
using the `firestore` tag for field names; fields with an empty or `"-"`
tag are skipped.  (The Go version also returns an `error` but never
produces one.) -/
def StructToMap (model : GoStruct) : FieldMap :=
  structToMapAux model.fields []

/-! ## The orchestrator (`DB`, `dbOptions`) and its builder operations -/

/-- `reflect.Kind` of a `Model` argument, to the depth the code inspects. -/
inductive GoKind where
  | struct_
  | ptr (inner : GoKind)
  | string_
  | int_
deriving DecidableEq, Repr

/-- `dbOptions` (db.go): the connection is an opaque handle (`0` = nil);
`modelVal` is derived from `modelType` and carries no extra information
relevant here, so it is not repeated. -/
structure DBOptions where
  conn : Nat
  modelType : Option GoKind
  updateBatchSize : Int
deriving DecidableEq, Repr

/-- `DB` (db.go): holds the options snapshot. -/
structure DB where
  options : DBOptions
deriving DecidableEq, Repr

/-- `New` (db.go): fresh instance, no model bound, batch size 100. -/
def New (conn : Nat) : DB :=
  ⟨{ conn := conn, modelType := none, updateBatchSize := 100 }⟩

/-- `DB.GetUpdateBatchSize` (db.go). -/
def GetUpdateBatchSize (db : DB) : Int :=
  db.options.updateBatchSize

/-- `DB.SetUpdateBatchSize` (db.go), verbatim: a `newInstance` copying the
receiver's options is built and its `updateBatchSize` set, but the
function then returns the receiver `db`, discarding `newInstance`. -/
def SetUpdateBatchSize (db : DB) (size : Int) : DB :=
  let newInstance : DB := { options := db.options }
  let newInstance : DB :=
    { newInstance with options := { newInstance.options with updateBatchSize := size } }
  db

/-- The intended builder semantics of `SetUpdateBatchSize` as the spec
states them (returns the new instance carrying `size`); used only to
contrast with the code's actual behaviour. -/
def SetUpdateBatchSizeSpec (db : DB) (size : Int) : DB :=
  { options := { db.options with updateBatchSize := size } }

/-- `DB.Model` (db.go): dereferences a pointer argument one level and
requires a struct kind, panicking otherwise (`none` models the panic);
on success a new instance with the model type bound is returned. -/
def Model (db : DB) (modelKind : GoKind) : Option DB :=
  let t := match modelKind with
    | .ptr inner => inner
    | k => k
  match t with
  | .struct_ => some { options := { db.options with modelType := some GoKind.struct_ } }
  | _ => none

/-! ## Query specifications and `ApplyQueries` -/

/-- `QueryLimitUnlimited` (query.go). -/
def QueryLimitUnlimited : Int := -1

/-- `QueryLimitMax` (query.go). -/
def QueryLimitMax : Int := 10000

/-- Outcome of `IValueProvider.GetValue` for a deferred filter value. -/
inductive ProviderResult where
  | ok (v : GoValue)
  | err (e : String)
deriving DecidableEq, Repr

/-- `WhereClause` (query.go); `ValueProvider = none` means no provider. -/
structure WhereClause where
  Field : String
  Operator : String
  Value : GoValue
  ValueProvider : Option ProviderResult
deriving DecidableEq, Repr

/-- `OrderClause` (query.go); `Direction` is the firestore direction int. -/
structure OrderClause where
  Field : String
  Direction : Int
deriving DecidableEq, Repr

/-- `Query` (query.go). -/
structure Query where
  Where : List WhereClause
  OrderBy : List OrderClause
  Limit : Int
deriving DecidableEq, Repr

/-- A `firestore.Query` is embedded as the ordered list of refinement
operations applied to the base collection query. -/
inductive QueryOp where
  | whereOp (field operator : String) (value : GoValue)
  | orderByOp (field : String) (direction : Int)
  | limitOp (n : Int)
deriving DecidableEq, Repr

/-- The filter loop of `ApplyQueries`: resolve the deferred provider if
present (a failure aborts with an error naming the field), then chain
`q.Where`. -/
def applyWheres (q : List QueryOp) : List WhereClause → Except String (List QueryOp)
  | [] => .ok q
  | w :: ws =>
    match w.ValueProvider with
    | some (.err e) =>
      .error ("failed to get value for field " ++ w.Field ++ ": " ++ e)
    | some (.ok v) => applyWheres (q ++ [.whereOp w.Field w.Operator v]) ws
    | none => applyWheres (q ++ [.whereOp w.Field w.Operator w.Value]) ws

/-- The order-by loop of `ApplyQueries`. -/
def applyOrders (q : List QueryOp) : List OrderClause → List QueryOp
  | [] => q
  | o :: os => applyOrders (q ++ [.orderByOp o.Field o.Direction]) os

/-- The limit step of `ApplyQueries`: applied only when positive and not
the unlimited sentinel. -/
def applyLimit (q : List QueryOp) (qry : Query) : List QueryOp :=
  if qry.Limit > 0 ∧ qry.Limit ≠ QueryLimitUnlimited then q ++ [.limitOp qry.Limit]
  else q

/-- `DB.ApplyQueries` (db.go): iterate the specs in order; within each,
filters, then order clauses, then the limit. -/
def ApplyQueries (q : List QueryOp) : List Query → Except String (List QueryOp)
  | [] => .ok q
  | qry :: rest =>
    match applyWheres q qry.Where with
    | .error e => .error e
    | .ok q1 => ApplyQueries (applyLimit (applyOrders q1 qry.OrderBy) qry) rest

/-- The value a filter contributes after provider resolution succeeds. -/
def resolvedValue (w : WhereClause) : GoValue :=
  match w.ValueProvider with
  | some (.ok v) => v
  | _ => w.Value

/-- The query operations one spec contributes on the success path. -/
def specOps (qry : Query) : List QueryOp :=
  qry.Where.map (fun w => .whereOp w.Field w.Operator (resolvedValue w))
    ++ qry.OrderBy.map (fun o => .orderByOp o.Field o.Direction)
    ++ (if qry.Limit > 0 ∧ qry.Limit ≠ QueryLimitUnlimited then [.limitOp qry.Limit] else [])

/-- The first provider failure among a spec's filters, with the error
message `ApplyQueries` builds for it. -/
def firstWhereFailure : List WhereClause → Option String
  | [] => none
  | w :: ws =>
    match w.ValueProvider with
    | some (.err e) =>
      some ("failed to get value for field " ++ w.Field ++ ": " ++ e)
    | _ => firstWhereFailure ws

/-- The first provider failure in processing order across the specs. -/
def firstFailure : List Query → Option String
  | [] => none
  | qry :: rest =>
    match firstWhereFailure qry.Where with
    | some e => some e
    | none => firstFailure rest

/-! ## `Save` -/

/-- The single external write a successful `Save` issues: a full-document
`Set` or a field-path `Update`. -/
inductive StoreWrite where
  | set (id : String) (data : FieldMap)
  | update (id : String) (updates : List (String × GoValue))
deriving DecidableEq, Repr

/-- The `fieldsToSave` loop of `Save`: look each listed field up in the
struct's field mapping, in order, failing on the first one that is
absent. -/
def buildUpdates (data : FieldMap) : List String → Except String (List (String × GoValue))
  | [] => .ok []
  | field :: fs =>
    match mapGet data field with
    | none => .error ("field " ++ field ++ " not found in model data")
    | some v =>
      match buildUpdates data fs with
      | .error e => .error e
      | .ok updates => .ok ((field, v) :: updates)

/-- `DB.Save` (db.go).  `newDocID` is the server-generated id that
`collection.NewDoc()` would return; `isPtr` records whether the model
was passed through a pointer (making its fields settable).  The result
pairs the model value after the call (the generated id is injected into
it in full-document creation mode) with the single store write issued;
an `error` result is returned before any external write.  Note the field
mapping `data` is computed from the model *before* the new-document id is
generated and injected. -/
def Save (isPtr : Bool) (newDocID : String) (model : GoStruct) (fieldsToSave : List String) :
    Except String (GoStruct × StoreWrite) :=
  let id := GetID model
  let data := StructToMap model
  let modelAndId :=
    if id == "" && fieldsToSave.isEmpty then (SetIDField isPtr model newDocID, newDocID)
    else (model, id)
  let model := modelAndId.1
  let id := modelAndId.2
  if fieldsToSave.length > 0 && id == "" then
    .error "cannot update fields on a record with no ID"
  else if fieldsToSave.isEmpty then
    .ok (model, .set id data)
  else
    match buildUpdates data fieldsToSave with
    | .error e => .error e
    | .ok updates => .ok (model, .update id updates)

/-! ## `FindAll` destination handling -/

/-- The decode loop of `FindAll` (db.go lines 233–242): `sliceVal` starts
as the *existing* destination slice, each returned document is decoded
into a fresh model value (`doc = (ref id, DataTo output)`), its id is
injected, and the element is appended; the slice is then written back. -/
def findAllFill (dest : List GoStruct) (docs : List (String × GoStruct)) : List GoStruct :=
  docs.foldl (fun sliceVal doc => sliceVal ++ [SetIDField true doc.2 doc.1]) dest

/-! ## The paginated by-query bulk-update loop of `Update` -/

/-- A document snapshot returned by a query, identified by its ref id. -/
structure DocSnap where
  id : String
deriving DecidableEq, Repr

/-- Index of the first occurrence of `d` (length when absent); models how
`StartAfter(lastDoc)` positions the cursor in a stably-ordered result. -/
def posOf (d : DocSnap) : List DocSnap → Nat
  | [] => 0
  | x :: xs => if x = d then 0 else posOf d xs + 1

/-- The external `RunQuery` capability under the stable-ordering
precondition: `result` is the full, stably ordered matching result set;
a `StartAfter` cursor positions strictly after that document, and
`Limit` truncates. -/
def runQuery (result : List DocSnap) (startAfterDoc : Option DocSnap) (limit : Nat) :
    List DocSnap :=
  match startAfterDoc with
  | none => result.take limit
  | some d => (result.drop (posOf d result + 1)).take limit

/-- The `for { ... }` pagination loop of `Update`'s by-query mode
(db.go lines 401–437): query a page of `batchSize` documents after the
cursor, stop when empty, otherwise build the write batch, fail if a
transaction is active (this check sits *inside* the loop, after the page
query and before the commit), commit the page, and advance the cursor to
the page's last document.  `fuel` bounds the number of iterations we
unfold; `none` means the loop did not finish within `fuel` iterations.
The result pairs the pages committed (in order) with `none` on success
or the error message. -/
def updateLoop (hasTx : Bool) (batchSize : Nat) (result : List DocSnap) :
    Nat → Option DocSnap → Option (List (List DocSnap) × Option String)
  | 0, _ => none
  | fuel + 1, lastDoc =>
    let docs := runQuery result lastDoc batchSize
    match docs.getLast? with
    | none => some ([], none)
    | some last =>
      if hasTx then some ([], some "transactional batch updates are not supported")
      else
        match updateLoop hasTx batchSize result fuel (some last) with
        | none => none
        | some (pages, outcome) => some (docs :: pages, outcome)

/-- The by-query branch of `DB.Update` (db.go lines 390–437), entered
when the model's id is empty: it requires a non-empty first where-spec
list, applies the specs, and runs the pagination loop; `result` is the
stably ordered result set of the applied query. -/
def updateByQuery (hasTx : Bool) (batchSize : Nat) (whereArg : List (List Query))
    (result : List DocSnap) (fuel : Nat) : Option (List (List DocSnap) × Option String) :=
  if whereArg.length == 0 || (whereArg.headD []).length == 0 then
    some ([], some "either ID or query conditions must be provided")
  else updateLoop hasTx batchSize result fuel none

/-! ## Map lemmas -/

theorem mapContains_append_single (m : FieldMap) (k k' : String) (v : GoValue) :
    mapContains (m ++ [(k, v)]) k' = (mapContains m k' || (k == k')) := by
  simp [mapContains, List.any_append]

theorem mapInsert_of_not_contains (m : FieldMap) (k : String) (v : GoValue)
    (h : mapContains m k = false) : mapInsert m k v = m ++ [(k, v)] := by
  simp [mapInsert, h]

theorem mapGet_append_single_ne (m : FieldMap) (k k' : String) (v : GoValue) (h : k' ≠ k) :
    mapGet (m ++ [(k', v)]) k = mapGet m k := by
  induction m with
  | nil =>
    have hk : (k' == k) = false := by simp [h]
    simp [mapGet, List.find?, hk]
  | cons p ps ih =>
    by_cases hp : p.1 == k
    · simp [mapGet, List.find?, hp]
    · simpa [mapGet, List.find?, hp] using ih

theorem mapGet_overwrite_ne (m : FieldMap) (k k' : String) (v : GoValue) (h : k' ≠ k) :
    mapGet (m.map (fun p => if p.1 == k' then (k', v) else p)) k = mapGet m k := by
  induction m with
  | nil => rfl
  | cons p ps ih =>
    by_cases hp : p.1 == k'
    · have hpk : (p.1 == k) = false := by
        have : p.1 = k' := by simpa using hp
        simp [this, h]
      simp only [List.map_cons, hp, if_pos rfl]
      have hk'k : (k' == k) = false := by simp [h]
      simpa [mapGet, List.find?, hpk, hk'k] using ih
    · by_cases hpk : p.1 == k
      · simp [mapGet, List.find?, hp, hpk]
      · simpa [mapGet, List.find?, hp, hpk] using ih

theorem mapGet_mapInsert_ne (m : FieldMap) (k k' : String) (v : GoValue) (h : k' ≠ k) :
    mapGet (mapInsert m k' v) k = mapGet m k := by
  by_cases hc : mapContains m k' = true
  · unfold mapInsert
    simpa [hc] using mapGet_overwrite_ne m k k' v h
  · have hc2 : mapContains m k' = false := by simpa using hc
    rw [mapInsert_of_not_contains m k' v hc2]
    exact mapGet_append_single_ne m k k' v h

theorem mapGet_structToMapAux_frozen (k : String) :
    ∀ (fs : List GoField) (m : FieldMap), (∀ f ∈ fs, f.tag ≠ k) →
      mapGet (structToMapAux fs m) k = mapGet m k := by
  intro fs
  induction fs with
  | nil => intro m _; rfl
  | cons f fs ih =>
    intro m hne
    by_cases hq : (f.tag == "" || f.tag == "-") = true
    · simp only [structToMapAux, hq, if_pos]
      exact ih m (fun g hg => hne g (List.mem_cons_of_mem f hg))
    · simp only [structToMapAux, hq, if_neg, Bool.not_eq_true]
      rw [ih (mapInsert m f.tag f.value) (fun g hg => hne g (List.mem_cons_of_mem f hg))]
      exact mapGet_mapInsert_ne m k f.tag f.value (hne f (List.mem_cons_self f fs))

theorem structToMapAux_eq_append :
    ∀ (fs : List GoField) (data : FieldMap),
      ((fs.filter qualifies).map GoField.tag).Nodup →
      (∀ f ∈ fs, qualifies f = true → mapContains data f.tag = false) →
      structToMapAux fs data = data ++ (fs.filter qualifies).map (fun f => (f.tag, f.value)) := by
  intro fs
  induction fs with
  | nil => intro data _ _; simp [structToMapAux]
  | cons f fs ih =>
    intro data hnd hdisj
    by_cases hq : (f.tag == "" || f.tag == "-") = true
    · have hqual : qualifies f = false := by simp [qualifies, hq]
      simp only [structToMapAux, hq, if_pos]
      rw [ih data (by simpa [List.filter_cons, hqual] using hnd)
        (fun g hg hgq => hdisj g (List.mem_cons_of_mem f hg) hgq)]
      simp [List.filter_cons, hqual]
    · have hqual : qualifies f = true := by
        simp only [qualifies, Bool.not_eq_true']
        exact Bool.not_eq_true _ ▸ (by simpa using hq)
      have hcont : mapContains data f.tag = false :=
        hdisj f (List.mem_cons_self f fs) hqual
      have hfil : (f :: fs).filter qualifies = f :: fs.filter qualifies := by
        simp [List.filter_cons, hqual]
      have hnd' : (f.tag :: (fs.filter qualifies).map GoField.tag).Nodup := by
        simpa [hfil] using hnd
      have hnotmem : f.tag ∉ (fs.filter qualifies).map GoField.tag :=
        (List.nodup_cons.mp hnd').1
      have hnd2 : ((fs.filter qualifies).map GoField.tag).Nodup :=
        (List.nodup_cons.mp hnd').2
      have hdisj2 : ∀ g ∈ fs, qualifies g = true →
          mapContains (data ++ [(f.tag, f.value)]) g.tag = false := by
        intro g hg hgq
        rw [mapContains_append_single]
        have h1 : mapContains data g.tag = false := hdisj g (List.mem_cons_of_mem f hg) hgq
        have h2 : f.tag ≠ g.tag := by
          intro hcontra
          exact hnotmem (hcontra ▸
            List.mem_map_of_mem GoField.tag (List.mem_filter.mpr ⟨hg, hgq⟩))
        simp [h1, h2]
      calc structToMapAux (f :: fs) data
          = structToMapAux fs (mapInsert data f.tag f.value) := by
            simp only [structToMapAux, hq, if_neg, Bool.not_eq_true]
        _ = structToMapAux fs (data ++ [(f.tag, f.value)]) := by
            rw [mapInsert_of_not_contains data f.tag f.value hcont]
        _ = (data ++ [(f.tag, f.value)]) ++ (fs.filter qualifies).map (fun g => (g.tag, g.value)) :=
            ih (data ++ [(f.tag, f.value)]) hnd2 hdisj2
        _ = data ++ ((f :: fs).filter qualifies).map (fun g => (g.tag, g.value)) := by
            simp [hfil, List.append_assoc]

/-- With pairwise distinct qualifying tags, `StructToMap` is the list of
qualifying fields' `(tag, value)` pairs in declaration order. -/
theorem structToMap_eq (r : GoStruct)
    (hnd : ((r.fields.filter qualifies).map GoField.tag).Nodup) :
    StructToMap r = (r.fields.filter qualifies).map (fun f => (f.tag, f.value)) := by
  unfold StructToMap
  rw [structToMapAux_eq_append r.fields [] hnd (fun f _ _ => rfl)]
  simp

/-! ## Record-adapter lemmas -/

theorem find?_setIDAux (id : String) :
    ∀ (fs : List GoField) (f : GoField),
      fs.find? (fun g => g.name == "ID") = some f →
      (setIDAux id fs).find? (fun g => g.name == "ID") = some { f with value := .str id } := by
  intro fs
  induction fs with
  | nil => intro f h; simp [List.find?] at h
  | cons g gs ih =>
    intro f h
    by_cases hg : (g.name == "ID") = true
    · have hfg : g = f := by simpa [List.find?, hg] using h
      subst hfg
      simp [setIDAux, hg, List.find?]
    · simp only [List.find?, hg] at h
      simp only [setIDAux, hg, if_neg, Bool.not_eq_true]
      simpa [List.find?, hg] using ih f h

/-! ## Claim theorems -/

/-- C6 (amended): for every record that does have an `"ID"` field of
string kind, reached settably (through a pointer), extracting the
identifier after injecting it round-trips: `GetID` after `SetIDField`
returns the injected id.  (The unamended claim fails for records without
such a field, see the counterexample.) -/
theorem getID_setIDField_roundtrip (r : GoStruct) (f : GoField) (s id : String)
    (hf : getfield r "ID" = some f) (hs : f.value = GoValue.str s) :
    GetID (SetIDField true r id) = id := by
  have hstr : f.value.isStr = true := by rw [hs]; rfl
  unfold SetIDField
  rw [hf]
  simp only [hstr, Bool.true_and, if_pos]
  unfold GetID getfield
  rw [find?_setIDAux id r.fields f hf]

/-- C6 counterexample: on a record with no `"ID"` field, `SetIDField` is
a no-op and `GetID` returns `""`, so the round-trip fails for `id = "x"`.
This refutes the claim as stated for *every* record. -/
theorem getID_setIDField_no_id_field : GetID (SetIDField true ⟨[]⟩ "x") ≠ "x" := by
  decide

/-- Witness for `getID_setIDField_roundtrip` at a concrete one-field
record. -/
theorem getID_setIDField_roundtrip_witness :
    GetID (SetIDField true ⟨[⟨"ID", "", GoValue.str ""⟩]⟩ "x") = "x" :=
  getID_setIDField_roundtrip ⟨[⟨"ID", "", GoValue.str ""⟩]⟩ ⟨"ID", "", GoValue.str ""⟩ "" "x"
    rfl rfl

/-- C5 (amended): with pairwise distinct qualifying tags, the field
mapping produced by `StructToMap` contains exactly the fields whose
`firestore` annotation is non-empty and not the `"-"` ignore sentinel,
each keyed by its annotation name, independent of declaration order
(membership is order-irrelevant).  The Identifier field is *not*
special-cased: it is excluded only when its own annotation fails to
qualify (see the counterexample for the unamended claim). -/
theorem structToMap_membership (r : GoStruct)
    (hnd : ((r.fields.filter qualifies).map GoField.tag).Nodup) (k : String) (v : GoValue) :
    (k, v) ∈ StructToMap r ↔ ∃ f ∈ r.fields, qualifies f = true ∧ f.tag = k ∧ f.value = v := by
  rw [structToMap_eq r hnd]
  constructor
  · intro hmem
    obtain ⟨f, hf, heq⟩ := List.mem_map.mp hmem
    obtain ⟨hfr, hq⟩ := List.mem_filter.mp hf
    exact ⟨f, hfr, hq, congrArg Prod.fst heq, congrArg Prod.snd heq⟩
  · rintro ⟨f, hfr, hq, rfl, rfl⟩
    exact List.mem_map_of_mem _ (List.mem_filter.mpr ⟨hfr, hq⟩)

/-- C5 counterexample: a record whose Identifier field carries the
annotation `"id"` has that field *included* in the mapping, refuting
"the Identifier field is excluded from the mapping". -/
theorem structToMap_includes_tagged_id :
    ("id", GoValue.str "abc") ∈ StructToMap ⟨[⟨"ID", "id", GoValue.str "abc"⟩]⟩ := by
  decide

/-- Witness for `structToMap_membership` at a concrete two-field record
(one qualifying, one ignored). -/
theorem structToMap_membership_witness :
    ("name", GoValue.str "w") ∈
      StructToMap ⟨[⟨"Name", "name", GoValue.str "w"⟩, ⟨"Skip", "-", GoValue.null⟩]⟩ :=
  (structToMap_membership ⟨[⟨"Name", "name", GoValue.str "w"⟩, ⟨"Skip", "-", GoValue.null⟩]⟩
      (by decide) "name" (GoValue.str "w")).mpr
    ⟨⟨"Name", "name", GoValue.str "w"⟩, by decide, by decide, rfl, rfl⟩

/-- C4: `SetUpdateBatchSize` builds a `newInstance` carrying the new
size but returns the receiver `db` unchanged, so the returned
orchestrator's batch size is the old one (100 here), not `5`; the
spec-intended builder (`SetUpdateBatchSizeSpec`) would return `5`.  The
receiver itself is indeed unmutated — but only because the whole call is
a no-op on the value returned. -/
theorem setUpdateBatchSize_returns_receiver :
    GetUpdateBatchSize (SetUpdateBatchSize (New 0) 5) = 100 ∧
    SetUpdateBatchSize (New 0) 5 = New 0 ∧
    GetUpdateBatchSize (SetUpdateBatchSizeSpec (New 0) 5) = 5 := by
  decide

/-- C10: `Model` panics (modeled as `none`) exactly when the argument's
kind is neither struct nor pointer-to-struct (one pointer level is
dereferenced, so pointer-to-pointer-to-struct also panics); on a struct
or pointer-to-struct it returns an instance with the model type bound
and the remaining configuration copied from the receiver. -/
theorem model_kind_characterization (db : DB) (k : GoKind) :
    (Model db k = none ↔ k ≠ GoKind.struct_ ∧ k ≠ GoKind.ptr GoKind.struct_) ∧
    ((k = GoKind.struct_ ∨ k = GoKind.ptr GoKind.struct_) →
      ∃ db', Model db k = some db' ∧ db'.options.modelType = some GoKind.struct_ ∧
        db'.options.conn = db.options.conn ∧
        db'.options.updateBatchSize = db.options.updateBatchSize) := by
  constructor
  · cases k with
    | struct_ => simp [Model]
    | ptr inner => cases inner <;> simp [Model]
    | string_ => simp [Model]
    | int_ => simp [Model]
  · rintro (rfl | rfl) <;> exact ⟨_, rfl, rfl, rfl, rfl⟩

/-- Witness for `model_kind_characterization` at a pointer-to-struct
argument. -/
theorem model_kind_characterization_witness :
    ∃ db', Model (New 0) (GoKind.ptr GoKind.struct_) = some db' ∧
      db'.options.modelType = some GoKind.struct_ ∧
      db'.options.conn = (New 0).options.conn ∧
      db'.options.updateBatchSize = (New 0).options.updateBatchSize :=
  (model_kind_characterization (New 0) (GoKind.ptr GoKind.struct_)).2 (Or.inr rfl)

/-- C3 (amended): `FindAll` *appends* to the destination slice: the
destination afterwards is its pre-existing elements followed by the
decoded documents (with ids injected) in store iteration order.
Pre-existing elements survive the call. -/
theorem findAllFill_appends (dest : List GoStruct) (docs : List (String × GoStruct)) :
    findAllFill dest docs = dest ++ docs.map (fun doc => SetIDField true doc.2 doc.1) := by
  induction docs generalizing dest with
  | nil => simp [findAllFill]
  | cons d ds ih =>
    unfold findAllFill at ih ⊢
    rw [List.foldl_cons, ih (dest ++ [SetIDField true d.2 d.1])]
    simp

/-- C3 counterexample: with a non-empty destination slice, the result is
not "exactly the decoded documents" — the pre-existing element survives
as the first element.  This refutes the claim as stated. -/
theorem findAllFill_preexisting_survives :
    findAllFill [⟨[⟨"Name", "name", GoValue.str "old"⟩]⟩] [("d1", ⟨[]⟩)]
        ≠ [SetIDField true ⟨[]⟩ "d1"] ∧
    (⟨[⟨"Name", "name", GoValue.str "old"⟩]⟩ : GoStruct) ∈
      findAllFill [⟨[⟨"Name", "name", GoValue.str "old"⟩]⟩] [("d1", ⟨[]⟩)] := by
  decide

/-! ## Predicate-builder lemmas (`ApplyQueries`) -/

theorem applyWheres_of_no_failure :
    ∀ (ws : List WhereClause) (q : List QueryOp), firstWhereFailure ws = none →
      applyWheres q ws =
        .ok (q ++ ws.map (fun w => QueryOp.whereOp w.Field w.Operator (resolvedValue w))) := by
  intro ws
  induction ws with
  | nil => intro q _; simp [applyWheres]
  | cons w ws ih =>
    intro q h
    match hvp : w.ValueProvider with
    | some (.err e) => simp [firstWhereFailure, hvp] at h
    | some (.ok v) =>
      have h2 : firstWhereFailure ws = none := by simpa [firstWhereFailure, hvp] using h
      simp only [applyWheres, hvp]
      rw [ih (q ++ [QueryOp.whereOp w.Field w.Operator v]) h2]
      simp [resolvedValue, hvp]
    | none =>
      have h2 : firstWhereFailure ws = none := by simpa [firstWhereFailure, hvp] using h
      simp only [applyWheres, hvp]
      rw [ih (q ++ [QueryOp.whereOp w.Field w.Operator w.Value]) h2]
      simp [resolvedValue, hvp]

theorem applyWheres_of_failure :
    ∀ (ws : List WhereClause) (q : List QueryOp) (e : String), firstWhereFailure ws = some e →
      applyWheres q ws = .error e := by
  intro ws
  induction ws with
  | nil => intro q e h; simp [firstWhereFailure] at h
  | cons w ws ih =>
    intro q e h
    match hvp : w.ValueProvider with
    | some (.err e0) =>
      have : ("failed to get value for field " ++ w.Field ++ ": " ++ e0) = e := by
        simpa [firstWhereFailure, hvp] using h
      simp [applyWheres, hvp, this]
    | some (.ok v) =>
      have h2 : firstWhereFailure ws = some e := by simpa [firstWhereFailure, hvp] using h
      simp only [applyWheres, hvp]
      exact ih _ e h2
    | none =>
      have h2 : firstWhereFailure ws = some e := by simpa [firstWhereFailure, hvp] using h
      simp only [applyWheres, hvp]
      exact ih _ e h2

theorem applyOrders_eq :
    ∀ (os : List OrderClause) (q : List QueryOp),
      applyOrders q os = q ++ os.map (fun o => QueryOp.orderByOp o.Field o.Direction) := by
  intro os
  induction os with
  | nil => intro q; simp [applyOrders]
  | cons o os ih =>
    intro q
    simp only [applyOrders]
    rw [ih (q ++ [QueryOp.orderByOp o.Field o.Direction])]
    simp

theorem applyLimit_eq (q : List QueryOp) (qry : Query) :
    applyLimit q qry =
      q ++ (if qry.Limit > 0 ∧ qry.Limit ≠ QueryLimitUnlimited then [.limitOp qry.Limit]
            else []) := by
  unfold applyLimit
  split <;> simp

/-- C7: `ApplyQueries` processes the specs in their given order and,
within each spec, applies filters in listed order (with deferred values
resolved), then order clauses in listed order, then the limit — only
when positive and not the unlimited sentinel (`specOps` spells this
order out).  If some filter's value provider fails, the whole
application aborts with the error message naming the offending field
(`firstFailure` is the message of the first failing filter in processing
order), and no refinement is returned, so no later clause is applied. -/
theorem applyQueries_spec (q0 : List QueryOp) (specs : List Query) :
    (firstFailure specs = none →
      ApplyQueries q0 specs = .ok (q0 ++ (specs.map specOps).flatten)) ∧
    (∀ e, firstFailure specs = some e → ApplyQueries q0 specs = .error e) := by
  induction specs generalizing q0 with
  | nil => exact ⟨fun _ => by simp [ApplyQueries], fun e h => by simp [firstFailure] at h⟩
  | cons qry rest ih =>
    match hw : firstWhereFailure qry.Where with
    | some e0 =>
      refine ⟨fun h => ?_, fun e h => ?_⟩
      · simp [firstFailure, hw] at h
      · have he : e0 = e := by simpa [firstFailure, hw] using h
        subst he
        simp only [ApplyQueries]
        rw [applyWheres_of_failure qry.Where q0 e0 hw]
    | none =>
      have hok := applyWheres_of_no_failure qry.Where q0 hw
      refine ⟨fun h => ?_, fun e h => ?_⟩
      · have h2 : firstFailure rest = none := by simpa [firstFailure, hw] using h
        simp only [ApplyQueries, hok]
        rw [(ih (applyLimit (applyOrders (q0 ++
          qry.Where.map (fun w => QueryOp.whereOp w.Field w.Operator (resolvedValue w)))
          qry.OrderBy) qry)).1 h2]
        rw [applyOrders_eq, applyLimit_eq]
        simp [specOps, List.append_assoc]
      · have h2 : firstFailure rest = some e := by simpa [firstFailure, hw] using h
        simp only [ApplyQueries, hok]
        exact (ih _).2 e h2

/-- Witness for `applyQueries_spec`: a concrete spec list whose second
filter's deferred provider fails; the application aborts with the
message naming that field. -/
theorem applyQueries_spec_witness :
    ApplyQueries []
        [⟨[⟨"age", ">", GoValue.int 30, none⟩,
           ⟨"cursor", ">", GoValue.null, some (.err "boom")⟩], [], 0⟩] =
      .error "failed to get value for field cursor: boom" :=
  (applyQueries_spec []
      [⟨[⟨"age", ">", GoValue.int 30, none⟩,
         ⟨"cursor", ">", GoValue.null, some (.err "boom")⟩], [], 0⟩]).2
    "failed to get value for field cursor: boom" rfl

/-! ## `Save` lemmas -/

theorem buildUpdates_first_missing (data : FieldMap) :
    ∀ (fs : List String), (∃ f ∈ fs, mapGet data f = none) →
      ∃ g ∈ fs, mapGet data g = none ∧
        buildUpdates data fs = .error ("field " ++ g ++ " not found in model data") := by
  intro fs
  induction fs with
  | nil => rintro ⟨f, hf, _⟩; simp at hf
  | cons f fs ih =>
    rintro ⟨g0, hg0, hnone⟩
    match hm : mapGet data f with
    | none =>
      exact ⟨f, List.mem_cons_self f fs, hm, by simp [buildUpdates, hm]⟩
    | some v =>
      have hne : g0 ≠ f := by
        intro hcontra
        rw [hcontra, hm] at hnone
        exact Option.noConfusion hnone
      have hg0m : g0 ∈ fs := by
        rcases List.mem_cons.mp hg0 with h | h
        · exact absurd h hne
        · exact h
      obtain ⟨g, hg, hgnone, herr⟩ := ih ⟨g0, hg0m, hnone⟩
      exact ⟨g, List.mem_cons_of_mem f hg, hgnone, by simp [buildUpdates, hm, herr]⟩

/-- C8: in partial-field mode (`fieldsToSave` non-empty), `Save` fails
with the "cannot update fields" error when the record's identifier is
empty, and — when the identifier is non-empty — fails with an error
naming an absent field (the first in listed order) whenever some listed
field is missing from the record's field mapping.  In both cases the
result is an `error`, which in this embedding carries no `StoreWrite`:
no external write is performed. -/
theorem save_partial_preconditions (model : GoStruct) (isPtr : Bool) (nid : String)
    (fields : List String) (hne : fields ≠ []) :
    (GetID model = "" →
      Save isPtr nid model fields = .error "cannot update fields on a record with no ID") ∧
    (GetID model ≠ "" → (∃ f ∈ fields, mapGet (StructToMap model) f = none) →
      ∃ g ∈ fields, mapGet (StructToMap model) g = none ∧
        Save isPtr nid model fields = .error ("field " ++ g ++ " not found in model data")) := by
  constructor
  · intro h1
    cases fields with
    | nil => exact absurd rfl hne
    | cons f0 fs => simp [Save, h1]
  · intro hid hex
    obtain ⟨g, hg, hgnone, herr⟩ := buildUpdates_first_missing (StructToMap model) fields hex
    refine ⟨g, hg, hgnone, ?_⟩
    cases fields with
    | nil => simp at hg
    | cons f0 fs =>
      have hid2 : (GetID model == "") = false := by
        simp only [beq_eq_false_iff_ne, ne_eq]
        exact hid
      simp [Save, hid2, herr]

/-- Witness for `save_partial_preconditions`: a record with identifier
`"x"` and mapped field `"name"`, asked to save the absent field
`"bogus"`. -/
theorem save_partial_preconditions_witness :
    ∃ g ∈ ["bogus"],
      mapGet (StructToMap ⟨[⟨"ID", "", GoValue.str "x"⟩, ⟨"Name", "name", GoValue.str "w"⟩]⟩) g
          = none ∧
      Save true "n" ⟨[⟨"ID", "", GoValue.str "x"⟩, ⟨"Name", "name", GoValue.str "w"⟩]⟩ ["bogus"]
          = .error ("field " ++ g ++ " not found in model data") :=
  (save_partial_preconditions ⟨[⟨"ID", "", GoValue.str "x"⟩, ⟨"Name", "name", GoValue.str "w"⟩]⟩
      true "n" ["bogus"] (by decide)).2 (by decide) ⟨"bogus", by decide, by decide⟩

/-- C9: in full-document `Save` with an empty identifier, the field
mapping is computed *before* the new document id is generated and
injected, so when the Identifier field itself carries a qualifying
annotation `tg`, the stored document's `tg` entry holds the
pre-generation empty value — not the generated id — even though the
in-memory record receives the generated id. -/
theorem save_full_stale_id_mapping (rest : List GoField) (tg nid : String)
    (htg1 : tg ≠ "") (htg2 : tg ≠ "-") (hnid : nid ≠ "")
    (hrest : ∀ f ∈ rest, f.tag ≠ tg) :
    ∃ model' data,
      Save true nid ⟨⟨"ID", tg, GoValue.str ""⟩ :: rest⟩ [] =
        Except.ok (model', StoreWrite.set nid data) ∧
      GetID model' = nid ∧
      mapGet data tg = some (GoValue.str "") ∧
      mapGet data tg ≠ some (GoValue.str nid) := by
  have hq : (tg == "" || tg == "-") = false := by
    simp [htg1, htg2]
  have hfrozen : mapGet (StructToMap ⟨⟨"ID", tg, GoValue.str ""⟩ :: rest⟩) tg
      = some (GoValue.str "") := by
    show mapGet (structToMapAux (⟨"ID", tg, GoValue.str ""⟩ :: rest) []) tg = _
    simp only [structToMapAux, hq, Bool.false_eq_true, if_false]
    rw [mapGet_structToMapAux_frozen tg rest (mapInsert [] tg (GoValue.str "")) hrest]
    simp [mapGet, mapInsert, mapContains, List.find?]
  refine ⟨⟨⟨"ID", tg, GoValue.str nid⟩ :: rest⟩,
    StructToMap ⟨⟨"ID", tg, GoValue.str ""⟩ :: rest⟩, rfl, rfl, hfrozen, ?_⟩
  rw [hfrozen]
  intro hcontra
  have hinj : GoValue.str "" = GoValue.str nid := by injection hcontra
  have : "" = nid := by injection hinj
  exact hnid this.symm

/-- Witness for `save_full_stale_id_mapping`: identifier tagged `"id"`,
one extra mapped field, generated id `"gen1"`. -/
theorem save_full_stale_id_mapping_witness :
    ∃ model' data,
      Save true "gen1" ⟨⟨"ID", "id", GoValue.str ""⟩ :: [⟨"Name", "name", GoValue.str "w"⟩]⟩ [] =
        Except.ok (model', StoreWrite.set "gen1" data) ∧
      GetID model' = "gen1" ∧
      mapGet data "id" = some (GoValue.str "") ∧
      mapGet data "id" ≠ some (GoValue.str "gen1") :=
  save_full_stale_id_mapping [⟨"Name", "name", GoValue.str "w"⟩] "id" "gen1"
    (by decide) (by decide) (by decide) (by decide)

/-! ## Bulk-update loop lemmas -/

theorem posOf_append (d : DocSnap) (pre rest : List DocSnap) (h : d ∉ pre) :
    posOf d (pre ++ d :: rest) = pre.length := by
  induction pre with
  | nil => simp [posOf]
  | cons x xs ih =>
    have hx : ¬(x = d) := fun hc => h (hc ▸ List.mem_cons_self x xs)
    simp [posOf, hx, ih (fun hm => h (List.mem_cons_of_mem x hm))]

theorem runQuery_after (result pre rest : List DocSnap) (d : DocSnap) (B : Nat)
    (hres : result = pre ++ d :: rest) (hnd : result.Nodup) :
    runQuery result (some d) B = rest.take B := by
  subst hres
  have hd : d ∉ pre := by
    intro hm
    exact (List.nodup_append.mp hnd).2.2 hm (List.mem_cons_self d rest)
  simp only [runQuery]
  rw [posOf_append d pre rest hd]
  have hdrop : (pre ++ d :: rest).drop (pre.length + 1) = rest := by
    have h2 : pre ++ d :: rest = (pre ++ [d]) ++ rest := by simp
    have h3 : (pre ++ [d]).length = pre.length + 1 := by simp
    rw [h2, ← h3]
    exact List.drop_left (pre ++ [d]) rest
  rw [hdrop]

theorem ceil_div_succ_step (N B : Nat) (hB : 0 < B) (hN : 0 < N) :
    (N - B + B - 1) / B + 1 = (N + B - 1) / B := by
  by_cases hNB : B ≤ N
  · have h1 : N - B + B - 1 = N - 1 := by omega
    have h2 : N + B - 1 = (N - 1) + B := by omega
    rw [h1, h2, Nat.add_div_right _ hB]
  · have h1 : N - B = 0 := by omega
    have h2 : (0 + B - 1) / B = 0 := Nat.div_eq_of_lt (by omega)
    have h3 : N + B - 1 = (N - 1) + B := by omega
    have h4 : (N - 1) / B = 0 := Nat.div_eq_of_lt (by omega)
    rw [h1, h2, h3, Nat.add_div_right _ hB, h4]

/-- Invariant-carrying induction for the non-transactional pagination
loop: if `result = pre ++ rest` with the cursor sitting on the last
element of `pre` (or at the start when `pre = []`), the loop commits the
chunks of `rest` in order. -/
theorem updateLoop_no_txn (B : Nat) (hB : 0 < B) (result : List DocSnap)
    (hnd : result.Nodup) :
    ∀ (fuel : Nat) (pre rest : List DocSnap) (lastDoc : Option DocSnap),
      result = pre ++ rest →
      rest.length + 1 ≤ fuel →
      (match lastDoc with
       | none => pre = []
       | some d => ∃ pre2, pre = pre2 ++ [d]) →
      ∃ pages, updateLoop false B result fuel lastDoc = some (pages, none) ∧
        pages.flatten = rest ∧ pages.length = (rest.length + B - 1) / B := by
  intro fuel
  induction fuel with
  | zero => intro pre rest lastDoc _ hf _; omega
  | succ f ih =>
    intro pre rest lastDoc heq hf hinv
    have hq : runQuery result lastDoc B = rest.take B := by
      cases lastDoc with
      | none =>
        have hpre : pre = [] := hinv
        rw [hpre] at heq
        simp [runQuery, heq]
      | some d =>
        obtain ⟨pre2, hpre⟩ := hinv
        exact runQuery_after result pre2 rest d B (by rw [heq, hpre]; simp) hnd
    cases rest with
    | nil =>
      have hq2 : runQuery result lastDoc B = [] := by simpa using hq
      refine ⟨[], ?_, rfl, ?_⟩
      · simp [updateLoop, hq2]
      · have h0 : ((List.length ([] : List DocSnap)) + B - 1) / B = 0 :=
          Nat.div_eq_of_lt (by simp; omega)
        simpa using h0.symm
    | cons r rest2 =>
      have htake_ne : (r :: rest2).take B ≠ [] := by
        cases B with
        | zero => omega
        | succ b => simp [List.take]
      obtain ⟨last, hlast⟩ : ∃ l2, ((r :: rest2).take B).getLast? = some l2 := by
        cases hl : ((r :: rest2).take B).getLast? with
        | none => exact absurd (List.getLast?_eq_none_iff.mp hl) htake_ne
        | some a => exact ⟨a, rfl⟩
      obtain ⟨docs2, hdocs2⟩ := List.getLast?_eq_some_iff.mp hlast
      have heq2 : result = (pre ++ (r :: rest2).take B) ++ (r :: rest2).drop B := by
        rw [heq, List.append_assoc, List.take_append_drop]
      have hf2 : ((r :: rest2).drop B).length + 1 ≤ f := by
        have h1 : ((r :: rest2).drop B).length = (r :: rest2).length - B := by simp
        simp only [List.length_cons] at hf h1
        omega
      have hinv2 : ∃ pre2, pre ++ (r :: rest2).take B = pre2 ++ [last] :=
        ⟨pre ++ docs2, by rw [hdocs2, List.append_assoc]⟩
      obtain ⟨pages2, hloop2, hflat2, hlen2⟩ :=
        ih (pre ++ (r :: rest2).take B) ((r :: rest2).drop B) (some last) heq2 hf2 hinv2
      refine ⟨(r :: rest2).take B :: pages2, ?_, ?_, ?_⟩
      · simp [updateLoop, hq, hlast, hloop2]
      · simp only [List.flatten_cons, hflat2]
        exact List.take_append_drop B (r :: rest2)
      · have hdl : ((r :: rest2).drop B).length = (r :: rest2).length - B := by simp
        rw [List.length_cons, hlen2, hdl]
        exact ceil_div_succ_step (r :: rest2).length B hB (by simp)

/-- C1: for a finite, stably ordered result set of `N` distinct
documents and batch size `B > 0`, the by-query bulk-update loop of
`Update` (with no active transaction) terminates — it finishes within
`N + 1` unfoldings — committing exactly `⌈N/B⌉ = (N + B - 1) / B` pages
(`0` commits when `N = 0`), and the committed pages concatenate to
exactly the result set in order: every matching document is updated
exactly once. -/
theorem bulk_update_pagination (B fuel : Nat) (result : List DocSnap)
    (hB : 0 < B) (hnd : result.Nodup) (hfuel : result.length + 1 ≤ fuel) :
    ∃ pages, updateLoop false B result fuel none = some (pages, none) ∧
      pages.length = (result.length + B - 1) / B ∧
      pages.flatten = result := by
  obtain ⟨pages, h1, h2, h3⟩ :=
    updateLoop_no_txn B hB result hnd fuel [] result none rfl hfuel rfl
  exact ⟨pages, h1, h3, h2⟩

/-- Witness for `bulk_update_pagination`: three documents, batch size 2,
two page commits `[[a, b], [c]]`. -/
theorem bulk_update_pagination_witness :
    ∃ pages, updateLoop false 2 [⟨"a"⟩, ⟨"b"⟩, ⟨"c"⟩] 4 none = some (pages, none) ∧
      pages.length = (([⟨"a"⟩, ⟨"b"⟩, ⟨"c"⟩] : List DocSnap).length + 2 - 1) / 2 ∧
      pages.flatten = [⟨"a"⟩, ⟨"b"⟩, ⟨"c"⟩] :=
  bulk_update_pagination 2 4 [⟨"a"⟩, ⟨"b"⟩, ⟨"c"⟩] (by decide) (by decide) (by decide)

/-- C2 counterexample: in by-query mode with an *active transaction* and
a query matching zero documents, `Update` returns success — no error is
raised at all, because the transaction check sits inside the pagination
loop after the page query, and the empty first page exits the loop
before reaching it.  This refutes the claim that the call fails before
any external call "including the case where the query would match zero
documents". -/
theorem update_txn_zero_match_no_error :
    updateByQuery true 100 [[⟨[⟨"age", ">", GoValue.int 30, none⟩], [], 0⟩]] [] 1
      = some ([], none) := by
  decide

/-- C2 (amended): in by-query mode with an active transaction and a
query matching at least one document, `Update` fails with the
transactional-batch error before committing any write (zero pages
committed) — but only after the first page query has been issued to the
store, not before any external call. -/
theorem update_txn_active_fails (B fuel : Nat) (whereArg : List (List Query))
    (result : List DocSnap) (hB : 0 < B) (hfuel : 0 < fuel)
    (hw : (whereArg.headD []).length ≠ 0) (hres : result ≠ []) :
    updateByQuery true B whereArg result fuel =
      some ([], some "transactional batch updates are not supported") := by
  have hguard : (whereArg.length == 0 || (whereArg.headD []).length == 0) = false := by
    cases whereArg with
    | nil => simp at hw
    | cons w ws => simp_all
  unfold updateByQuery
  simp only [hguard, Bool.false_eq_true, if_false]
  cases fuel with
  | zero => omega
  | succ f =>
    cases result with
    | nil => exact absurd rfl hres
    | cons r rs =>
      have hne2 : (r :: rs).take B ≠ [] := by
        cases B with
        | zero => omega
        | succ b => simp [List.take]
      obtain ⟨last, hlast⟩ : ∃ l2, ((r :: rs).take B).getLast? = some l2 := by
        cases hl : ((r :: rs).take B).getLast? with
        | none => exact absurd (List.getLast?_eq_none_iff.mp hl) hne2
        | some a => exact ⟨a, rfl⟩
      simp [updateLoop, runQuery, hlast]

/-- Witness for `update_txn_active_fails`: one matching document, batch
size 1, fuel 1. -/
theorem update_txn_active_fails_witness :
    updateByQuery true 1 [[⟨[⟨"age", ">", GoValue.int 30, none⟩], [], 0⟩]] [⟨"a"⟩] 1 =
      some ([], some "transactional batch updates are not supported") :=
  update_txn_active_fails 1 1 [[⟨[⟨"age", ">", GoValue.int 30, none⟩], [], 0⟩]] [⟨"a"⟩]
    (by decide) (by decide) (by decide) (by decide)

end Fireorm
